import Mathlib

/-!
Verification of the `GoogleSheetsSecureAPI` signed-request client
(`gs_secure_api_cdn.js`) against its natural-language specification.

The JavaScript source is shallowly embedded below:
* JS strings are modelled as Lean `String` (sequences of Unicode scalar
  values); where JS semantics depend on the UTF-16 representation — the
  comparator-less `Array.prototype.sort` compares code units — the model
  computes the code units explicitly (`utf16`).  JS objects whose values are
  strings are modelled as association lists `List (String × String)` in
  insertion order, with the JS property assignment semantics (`objSet`):
  assigning to an existing key updates the value in place, assigning to a
  fresh key appends it.  Property access on a decoded JSON value is fallible
  (`JVal.get`): reading a property of `null` throws a `TypeError`.
* `CryptoJS.HmacSHA256(msg, key).toString()` is modelled by a full
  executable HMAC-SHA256 over UTF-8 bytes (`computeHMAC`), returning the
  lowercase hexadecimal digest, exactly as CryptoJS does.
* The effectful `request` is modelled as a pure function of the
  configuration, the call parameters and an environment (`Env`) that fixes
  `Date.now()`, `window.location.origin` and the fate of the `fetch` call
  (`FetchOutcome`).  It returns the list of observable network actions
  together with the result (`Except ReqError JVal`).
-/

namespace GSApi

/-! ### SHA-256 over byte lists (bytes are `Nat` below 256, words `Nat` below 2^32) -/

/-- Truncate to a 32-bit word. -/
def w32 (n : Nat) : Nat := n % 4294967296

/-- Right rotation of a 32-bit word. -/
def rotr (x n : Nat) : Nat := w32 ((x >>> n) + ((x % (2 ^ n)) * 2 ^ (32 - n)))

/-- Logical right shift. -/
def shr (x n : Nat) : Nat := x >>> n

/-- XOR of three words. -/
def xor3 (a b c : Nat) : Nat := Nat.xor (Nat.xor a b) c

def bsig0 (x : Nat) : Nat := xor3 (rotr x 2) (rotr x 13) (rotr x 22)
def bsig1 (x : Nat) : Nat := xor3 (rotr x 6) (rotr x 11) (rotr x 25)
def ssig0 (x : Nat) : Nat := xor3 (rotr x 7) (rotr x 18) (shr x 3)
def ssig1 (x : Nat) : Nat := xor3 (rotr x 17) (rotr x 19) (shr x 10)

/-- The 64 SHA-256 round constants. -/
def sha256K : List Nat :=
  [1116352408, 1899447441, 3049323471, 3921009573, 961987163, 1508970993,
   2453635748, 2870763221, 3624381080, 310598401, 607225278, 1426881987,
   1925078388, 2162078206, 2614888103, 3248222580, 3835390401, 4022224774,
   264347078, 604807628, 770255983, 1249150122, 1555081692, 1996064986,
   2554220882, 2821834349, 2952996808, 3210313671, 3336571891, 3584528711,
   113926993, 338241895, 666307205, 773529912, 1294757372, 1396182291,
   1695183700, 1986661051, 2177026350, 2456956037, 2730485921, 2820302411,
   3259730800, 3345764771, 3516065817, 3600352804, 4094571909, 275423344,
   430227734, 506948616, 659060556, 883997877, 958139571, 1322822218,
   1537002063, 1747873779, 1955562222, 2024104815, 2227730452, 2361852424,
   2428436474, 2756734187, 3204031479, 3329325298]

/-- The eight 32-bit state words of SHA-256. -/
structure H8 where
  a : Nat
  b : Nat
  c : Nat
  d : Nat
  e : Nat
  f : Nat
  g : Nat
  h : Nat

/-- SHA-256 initial hash value. -/
def sha256Init : H8 :=
  ⟨1779033703, 3144134277, 1013904242, 2773480762, 1359893119, 2600822924, 528734635, 1541459225⟩

/-- Group bytes into big-endian 32-bit words. -/
def bytesToWords : List Nat → List Nat
  | b0 :: b1 :: b2 :: b3 :: rest => (((b0 * 256 + b1) * 256 + b2) * 256 + b3) :: bytesToWords rest
  | _ => []

/-- One step of the message-schedule extension. -/
def wStep (w : List Nat) (_i : Nat) : List Nat :=
  let n := w.length
  w ++ [w32 (ssig1 (w.getD (n - 2) 0) + w.getD (n - 7) 0 + ssig0 (w.getD (n - 15) 0) + w.getD (n - 16) 0)]

/-- Extend the 16 block words to the 64 schedule words. -/
def buildW (block : List Nat) : List Nat := (List.range 48).foldl wStep block

def ch (x y z : Nat) : Nat := Nat.xor (Nat.land x y) (Nat.land (4294967295 - x) z)
def maj (x y z : Nat) : Nat := xor3 (Nat.land x y) (Nat.land x z) (Nat.land y z)

/-- One SHA-256 round. -/
def roundStep (st : H8) (kw : Nat × Nat) : H8 :=
  let t1 := w32 (st.h + bsig1 st.e + ch st.e st.f st.g + kw.1 + kw.2)
  let t2 := w32 (bsig0 st.a + maj st.a st.b st.c)
  ⟨w32 (t1 + t2), st.a, st.b, st.c, w32 (st.d + t1), st.e, st.f, st.g⟩

/-- Compress one 64-byte block into the running hash value. -/
def compressBlock (hv : H8) (block : List Nat) : H8 :=
  let ws := buildW (bytesToWords block)
  let st := (sha256K.zip ws).foldl roundStep hv
  ⟨w32 (hv.a + st.a), w32 (hv.b + st.b), w32 (hv.c + st.c), w32 (hv.d + st.d),
   w32 (hv.e + st.e), w32 (hv.f + st.f), w32 (hv.g + st.g), w32 (hv.h + st.h)⟩

/-- Fuel-indexed block loop (structural recursion so the kernel can evaluate it). -/
def sha256Loop : Nat → H8 → List Nat → H8
  | 0, hv, _ => hv
  | _, hv, [] => hv
  | fuel + 1, hv, a :: rest =>
    sha256Loop fuel (compressBlock hv ((a :: rest).take 64)) ((a :: rest).drop 64)

/-- Merkle–Damgård padding: `0x80`, zeros, then the 64-bit big-endian bit length. -/
def padMsg (msg : List Nat) : List Nat :=
  let len := msg.length
  let zeros := (55 + 64 - len % 64) % 64
  let bitLen := len * 8
  msg ++ [128] ++ List.replicate zeros 0 ++
    [bitLen / 72057594037927936 % 256, bitLen / 281474976710656 % 256,
     bitLen / 1099511627776 % 256, bitLen / 4294967296 % 256,
     bitLen / 16777216 % 256, bitLen / 65536 % 256, bitLen / 256 % 256, bitLen % 256]

/-- SHA-256 of a byte list, as the eight state words. -/
def sha256H8 (msg : List Nat) : H8 :=
  let padded := padMsg msg
  sha256Loop padded.length sha256Init padded

/-- Big-endian bytes of a 32-bit word. -/
def wordToBytes (n : Nat) : List Nat := [n / 16777216 % 256, n / 65536 % 256, n / 256 % 256, n % 256]

/-- SHA-256 digest as 32 bytes. -/
def sha256Bytes (msg : List Nat) : List Nat :=
  let hv := sha256H8 msg
  wordToBytes hv.a ++ wordToBytes hv.b ++ wordToBytes hv.c ++ wordToBytes hv.d ++
  wordToBytes hv.e ++ wordToBytes hv.f ++ wordToBytes hv.g ++ wordToBytes hv.h

/-- Lowercase hexadecimal digit. -/
def hexDigit (n : Nat) : Char := "0123456789abcdef".data.getD n 'x'

/-- Two lowercase hex digits of a byte. -/
def byteToHex (n : Nat) : List Char := [hexDigit (n / 16 % 16), hexDigit (n % 16)]

/-- Lowercase hexadecimal rendering of a byte list. -/
def bytesToHex (bs : List Nat) : String := String.mk (bs.flatMap byteToHex)

/-- UTF-8 encoding of one Unicode scalar value. -/
def utf8Char (c : Char) : List Nat :=
  let n := c.toNat
  if n < 128 then [n]
  else if n < 2048 then [192 + n / 64, 128 + n % 64]
  else if n < 65536 then [224 + n / 4096, 128 + n / 64 % 64, 128 + n % 64]
  else [240 + n / 262144, 128 + n / 4096 % 64, 128 + n / 64 % 64, 128 + n % 64]

/-- UTF-8 bytes of a string (this is how CryptoJS interprets string inputs). -/
def utf8 (s : String) : List Nat := s.data.flatMap utf8Char

/-- HMAC-SHA256 (RFC 2104) over byte lists, 64-byte block size. -/
def hmacSha256Bytes (key msg : List Nat) : List Nat :=
  let k0 := if key.length > 64 then sha256Bytes key else key
  let kp := k0 ++ List.replicate (64 - k0.length) 0
  let ipad := kp.map (Nat.xor 54)
  let opad := kp.map (Nat.xor 92)
  sha256Bytes (opad ++ sha256Bytes (ipad ++ msg))

/-- HMAC-SHA256 with a lowercase hexadecimal digest string. -/
def hmacSha256Hex (key msg : List Nat) : String := bytesToHex (hmacSha256Bytes key msg)

set_option maxRecDepth 100000

/-- Sanity check of the SHA-256 embedding against the FIPS 180 test vector. -/
theorem sha256_abc_vector :
    bytesToHex (sha256Bytes (utf8 "abc")) =
      "ba7816bf8f01cfea414140de5dae2223b00361a396177a9cb410ff61f20015ad" := by decide

/-! ### UTF-16 code-unit lexicographic key order (JS comparator-less `Array.prototype.sort`) -/

/-- Lexicographic comparison of scalar-value (code-point) sequences — the
order the specification asserts; used for the spec-side formulation only. -/
def charListLe : List Char → List Char → Bool
  | [], _ => true
  | _ :: _, [] => false
  | a :: as, b :: bs =>
    if a.toNat < b.toNat then true
    else if b.toNat < a.toNat then false
    else charListLe as bs

/-- The UTF-16 code units of one Unicode scalar value: astral scalars encode
as a surrogate pair, everything else as itself. -/
def utf16Char (c : Char) : List Nat :=
  if c.toNat < 65536 then [c.toNat]
  else [55296 + (c.toNat - 65536) / 1024, 56320 + (c.toNat - 65536) % 1024]

/-- The UTF-16 code units of a string (JS strings are UTF-16). -/
def utf16 (s : String) : List Nat := s.data.flatMap utf16Char

/-- Lexicographic comparison of code-unit sequences. -/
def unitListLe : List Nat → List Nat → Bool
  | [], _ => true
  | _ :: _, [] => false
  | a :: as, b :: bs =>
    if a < b then true
    else if b < a then false
    else unitListLe as bs

/-- Key order used by `Object.keys(params).sort()`: the comparator-less JS
sort compares strings by UTF-16 code units, which diverges from code-point
order exactly when an astral-plane key meets a key with characters in
U+E000–U+FFFF. -/
def keyLe (a b : String) : Bool := unitListLe (utf16 a) (utf16 b)

/-! ### JS object model: association lists in insertion order -/

/-- JS property read `o[k]`, as an option. -/
def jsLookup : List (String × String) → String → Option String
  | [], _ => none
  | p :: rest, k => if p.1 = k then some p.2 else jsLookup rest k

/-- JS property read `o[k]` coerced to a string (`undefined` is not hit by the code paths modelled). -/
def jsIndex (o : List (String × String)) (k : String) : String := (jsLookup o k).getD ""

/-- Whether the object has the key. -/
def hasKey : List (String × String) → String → Bool
  | [], _ => false
  | p :: rest, k => p.1 == k || hasKey rest k

/-- JS property assignment `o[k] = v` (also the effect of a later entry in an
object spread): updates in place if the key exists, else appends. -/
def objSet (o : List (String × String)) (k v : String) : List (String × String) :=
  if hasKey o k then o.map (fun p => if p.1 = k then (k, v) else p) else o ++ [(k, v)]

/-! ### The signature computation (`computeHMAC`, `createSignature`) -/

/-- `CryptoJS.HmacSHA256(message, secret).toString()`: lowercase hex HMAC-SHA256
of the UTF-8 bytes of `message`, keyed by the UTF-8 bytes of `secret`. -/
def computeHMAC (message secret : String) : String := hmacSha256Hex (utf8 secret) (utf8 message)

/-- `Object.keys(params).sort()`: the keys in code-point lexicographic order. -/
def sortedKeys (params : List (String × String)) : List String :=
  List.insertionSort (fun a b => keyLe a b = true) (params.map Prod.fst)

/-- `Array.prototype.join('&')`. -/
def joinAmp : List String → String
  | [] => ""
  | [x] => x
  | x :: y :: rest => x ++ "&" ++ joinAmp (y :: rest)

/-- The canonical signature string `k1=v1&k2=v2&...` over sorted keys —
raw concatenation, no URL-encoding. -/
def canonicalString (params : List (String × String)) : String :=
  joinAmp ((sortedKeys params).map (fun k => k ++ "=" ++ jsIndex params k))

/-- `createSignature(params, secret)` from the source. -/
def createSignature (params : List (String × String)) (secret : String) : String :=
  computeHMAC (canonicalString params) secret

/-! ### Configuration (`constructor`, `configure`) -/

/-- A fully resolved client configuration (`this.config`). -/
structure Config where
  scriptUrl : String
  apiToken : String
  hmacSecret : String
  debug : Bool
  timeout : Int

/-- The caller-supplied partial configuration object; `none` is an absent property. -/
structure ConfigInput where
  scriptUrl : Option String
  apiToken : Option String
  hmacSecret : Option String
  debug : Option Bool
  timeout : Option Int

/-- The constructor: each field is `config.f || default` (JS `||`, so the empty
string, `false` and `0` also fall back to the default). -/
def mkConfig (c : ConfigInput) : Config :=
  ⟨c.scriptUrl.getD "",
   c.apiToken.getD "",
   c.hmacSecret.getD "",
   (match c.debug with | none => false | some b => b || false),
   (match c.timeout with | none => 30000 | some t => if t = 0 then 30000 else t)⟩

/-- `configure(config)`: shallow merge `{...this.config, ...config}` — supplied
fields overwrite verbatim, with no defaulting pass. -/
def configure (cfg : Config) (c : ConfigInput) : Config :=
  ⟨c.scriptUrl.getD cfg.scriptUrl,
   c.apiToken.getD cfg.apiToken,
   c.hmacSecret.getD cfg.hmacSecret,
   c.debug.getD cfg.debug,
   c.timeout.getD cfg.timeout⟩

/-! ### JSON values and the response handling -/

/-- Decoded JSON bodies (`await response.json()`). -/
inductive JVal where
  | str : String → JVal
  | num : Int → JVal
  | bool : Bool → JVal
  | null : JVal
  | arr : List JVal → JVal
  | obj : List (String × JVal) → JVal

/-- JS property access `data.k` on a decoded value: on `null` the access
throws a `TypeError` (the `Except.error` case); on other non-object values it
yields `undefined` (`none`); on an object it looks the key up. -/
def JVal.get (v : JVal) (k : String) : Except String (Option JVal) :=
  match v with
  | .null => Except.error "TypeError: cannot read properties of null"
  | .obj fields => Except.ok ((fields.find? (fun p => p.1 == k)).map Prod.snd)
  | _ => Except.ok none

/-- JS truthiness of a decoded value. -/
def JVal.truthy : JVal → Bool
  | .str s => !(s == "")
  | .num n => !(n == 0)
  | .bool b => b
  | .null => false
  | .arr _ => true
  | .obj _ => true

mutual
/-- JS `String(v)` on a decoded value (as used by `new Error(data.message)`). -/
def JVal.toStr : JVal → String
  | .str s => s
  | .num n => toString n
  | .bool b => if b then "true" else "false"
  | .null => "null"
  | .arr xs => String.intercalate "," (JVal.toStrItems xs)
  | .obj _ => "[object Object]"

/-- Array elements are joined with commas; `null` elements render empty. -/
def JVal.toStrItems : List JVal → List String
  | [] => []
  | .null :: rest => "" :: JVal.toStrItems rest
  | v :: rest => v.toStr :: JVal.toStrItems rest
end

/-- The message of the `RequestFailed` error, from the value of
`data.message` (`none` is `undefined`): `data.message || 'Request failed'`. -/
def jsMessage (msg : Option JVal) : String :=
  match msg with
  | some m => if m.truthy then m.toStr else "Request failed"
  | none => "Request failed"

/-! ### The request operation -/

/-- The failure taxonomy of `request` (each constructor is one `throw` site). -/
inductive ReqError where
  | configIncomplete
  | timeout
  | httpError (status : Nat)
  | requestFailed (message : String)
  | typeError (message : String)
  | netError (message : String)
deriving DecidableEq

/-- The fate of the issued `fetch`: the abort timer fires first, the fetch
rejects with a non-abort fault, or a response with a status and a JSON-decoded
(or undecodable) body arrives. -/
inductive FetchOutcome where
  | timeout
  | netError (message : String)
  | response (status : Nat) (body : Except String JVal)

/-- The ambient environment of one `request` call: `Date.now()`,
`window.location.origin`, and the network's behaviour. -/
structure Env where
  now : Nat
  origin : String
  net : FetchOutcome

/-- Observable network actions of a call. -/
inductive Action where
  | fetch (baseUrl : String) (query : List (String × String))
  | abort
deriving DecidableEq

/-- The envelope before the signature is attached: `{...params, token,
timestamp, referrer, origin}` in JS spread/assignment order. -/
def buildEnvelope (cfg : Config) (env : Env) (params : List (String × String)) :
    List (String × String) :=
  objSet (objSet (objSet (objSet params "token" cfg.apiToken)
    "timestamp" (toString env.now)) "referrer" env.origin) "origin" env.origin

/-- The `throw new Error(data.message || 'Request failed')` branch.  The
`data.message` access is itself fallible; a thrown `TypeError` there would be
rethrown by the catch as the underlying fault (it cannot actually throw on
this path, since `data.status` was already read successfully). -/
def failWith (data : JVal) : Except ReqError JVal :=
  match data.get "message" with
  | Except.error m => Except.error (ReqError.typeError m)
  | Except.ok mv => Except.error (ReqError.requestFailed (jsMessage mv))

/-- Everything after the `fetch`: the timeout/abort race, the `response.ok`
check, JSON decoding, and the `status === 'success'` dispatch.  Reading
`data.status` on a `null` body throws a `TypeError`, which the catch block
rethrows as the underlying fault. -/
def fetchResult (net : FetchOutcome) : List Action × Except ReqError JVal :=
  match net with
  | .timeout => ([.abort], .error .timeout)
  | .netError m => ([], .error (.netError m))
  | .response status body =>
    ([],
      if status < 200 ∨ 299 < status then .error (.httpError status)
      else
        match body with
        | .error m => .error (.netError m)
        | .ok data =>
          match data.get "status" with
          | Except.error m => Except.error (ReqError.typeError m)
          | Except.ok (some (JVal.str s)) =>
            if s = "success" then Except.ok data else failWith data
          | Except.ok _ => failWith data)

/-- `request(params)`: the configuration precondition, envelope construction,
signing, the single `fetch` with its query parameters, and result handling. -/
def request (cfg : Config) (env : Env) (params : List (String × String)) :
    List Action × Except ReqError JVal :=
  if cfg.scriptUrl = "" ∨ cfg.apiToken = "" ∨ cfg.hmacSecret = "" then
    ([], .error .configIncomplete)
  else
    let pre := buildEnvelope cfg env params
    let envl := objSet pre "signature" (createSignature pre cfg.hmacSecret)
    (Action.fetch cfg.scriptUrl envl :: (fetchResult env.net).1, (fetchResult env.net).2)

/-- `requestSequential(requestsArray)`: one request at a time, each awaited
before the next begins; each iteration of the loop runs in its own ambient
environment, so the list pairs every params object with the environment its
request will see; the loop stops at the first failure. -/
def requestSequential (cfg : Config) :
    List (List (String × String) × Env) → List Action × Except ReqError (List JVal)
  | [] => ([], Except.ok [])
  | pe :: rest =>
    let r := request cfg pe.2 pe.1
    match r.2 with
    | Except.error e => (r.1, Except.error e)
    | Except.ok v =>
      let rs := requestSequential cfg rest
      match rs.2 with
      | Except.error e => (r.1 ++ rs.1, Except.error e)
      | Except.ok vs => (r.1 ++ rs.1, Except.ok (v :: vs))

/-! ### Order lemmas for the key comparison -/

theorem unitListLe_total : ∀ u v : List Nat, unitListLe u v = true ∨ unitListLe v u = true
  | [], v => by cases v <;> simp [unitListLe]
  | a :: u, [] => by simp [unitListLe]
  | a :: u, b :: v => by
    rcases Nat.lt_trichotomy a b with h | h | h
    · left; simp [unitListLe, h]
    · rcases unitListLe_total u v with hr | hr
      · left; simp [unitListLe, h, Nat.lt_irrefl, hr]
      · right; simp [unitListLe, h, Nat.lt_irrefl, hr]
    · right; simp [unitListLe, h]

theorem unitListLe_trans :
    ∀ u v w : List Nat, unitListLe u v = true → unitListLe v w = true → unitListLe u w = true
  | [], v, w, _, _ => by cases w <;> simp [unitListLe]
  | a :: u, [], w, h1, _ => by simp [unitListLe] at h1
  | a :: u, b :: v, [], _, h2 => by simp [unitListLe] at h2
  | a :: u, b :: v, c :: w, h1, h2 => by
    simp only [unitListLe] at h1 h2 ⊢
    rcases Nat.lt_trichotomy a b with hab | hab | hab <;>
      rcases Nat.lt_trichotomy b c with hbc | hbc | hbc
    · simp [show a < c by omega]
    · simp [show a < c by omega]
    · rw [if_neg (by omega), if_pos hbc] at h2; exact absurd h2 (by simp)
    · simp [show a < c by omega]
    · rw [if_neg (by omega), if_neg (by omega)] at h1 h2 ⊢
      exact unitListLe_trans u v w h1 h2
    · rw [if_neg (by omega), if_pos hbc] at h2; exact absurd h2 (by simp)
    · rw [if_neg (by omega), if_pos hab] at h1; exact absurd h1 (by simp)
    · rw [if_neg (by omega), if_pos hab] at h1; exact absurd h1 (by simp)
    · rw [if_neg (by omega), if_pos hab] at h1; exact absurd h1 (by simp)

theorem unitListLe_antisymm :
    ∀ u v : List Nat, unitListLe u v = true → unitListLe v u = true → u = v
  | [], [], _, _ => rfl
  | [], b :: v, _, h2 => by simp [unitListLe] at h2
  | a :: u, [], h1, _ => by simp [unitListLe] at h1
  | a :: u, b :: v, h1, h2 => by
    simp only [unitListLe] at h1 h2
    rcases Nat.lt_trichotomy a b with h | h | h
    · rw [if_neg (by omega), if_pos h] at h2; exact absurd h2 (by simp)
    · subst h
      rw [if_neg (Nat.lt_irrefl _), if_neg (Nat.lt_irrefl _)] at h1 h2
      rw [unitListLe_antisymm u v h1 h2]
    · rw [if_neg (by omega), if_pos h] at h1; exact absurd h1 (by simp)

/-- The validity range of a scalar value (no surrogates, below U+110000). -/
theorem char_toNat_valid (c : Char) :
    c.toNat < 55296 ∨ (57343 < c.toNat ∧ c.toNat < 1114112) := c.valid

theorem utf16Char_ne_nil (c : Char) : utf16Char c ≠ [] := by
  rw [utf16Char]
  split <;> simp

/-- UTF-16 encoding is injective on scalar-value sequences: the first unit of
a character tells whether it is a surrogate pair, since scalars are never
surrogates. -/
theorem flatMap_utf16Char_injective :
    ∀ as bs : List Char, as.flatMap utf16Char = bs.flatMap utf16Char → as = bs
  | [], [], _ => rfl
  | [], b :: bs, h => by
    rw [List.flatMap_nil, List.flatMap_cons] at h
    exact absurd (List.append_eq_nil.mp h.symm).1 (utf16Char_ne_nil b)
  | a :: as, [], h => by
    rw [List.flatMap_nil, List.flatMap_cons] at h
    exact absurd (List.append_eq_nil.mp h).1 (utf16Char_ne_nil a)
  | a :: as, b :: bs, h => by
    rw [List.flatMap_cons, List.flatMap_cons] at h
    have hva := char_toNat_valid a
    have hvb := char_toNat_valid b
    by_cases ha : a.toNat < 65536 <;> by_cases hb : b.toNat < 65536
    · rw [utf16Char, utf16Char, if_pos ha, if_pos hb] at h
      simp only [List.cons_append, List.nil_append, List.cons.injEq] at h
      have hab : a = b := Char.eq_of_val_eq (UInt32.ext h.1)
      rw [hab, flatMap_utf16Char_injective as bs h.2]
    · rw [utf16Char, utf16Char, if_pos ha, if_neg hb] at h
      simp only [List.cons_append, List.nil_append, List.cons.injEq] at h
      exact absurd h.1 (by omega)
    · rw [utf16Char, utf16Char, if_neg ha, if_pos hb] at h
      simp only [List.cons_append, List.nil_append, List.cons.injEq] at h
      exact absurd h.1 (by omega)
    · rw [utf16Char, utf16Char, if_neg ha, if_neg hb] at h
      simp only [List.cons_append, List.nil_append, List.cons.injEq] at h
      have htn : a.toNat = b.toNat := by omega
      have hab : a = b := Char.eq_of_val_eq (UInt32.ext htn)
      rw [hab, flatMap_utf16Char_injective as bs h.2.2]

theorem utf16_injective {s t : String} (h : utf16 s = utf16 t) : s = t :=
  String.ext (flatMap_utf16Char_injective s.data t.data h)

/-- The relation `insertionSort` uses for `Object.keys(params).sort()`. -/
def keyRel : String → String → Prop := fun a b => keyLe a b = true

instance keyRelDecidable : DecidableRel keyRel := fun _ _ => inferInstanceAs (Decidable (_ = true))

instance keyRelTotal : IsTotal String keyRel :=
  ⟨fun a b => unitListLe_total (utf16 a) (utf16 b)⟩

instance keyRelTrans : IsTrans String keyRel :=
  ⟨fun a b c h1 h2 => unitListLe_trans (utf16 a) (utf16 b) (utf16 c) h1 h2⟩

instance keyRelAntisymm : IsAntisymm String keyRel :=
  ⟨fun a b h1 h2 => utf16_injective (unitListLe_antisymm (utf16 a) (utf16 b) h1 h2)⟩

/-! ### Lookup lemmas -/

theorem jsLookup_eq_none_iff : ∀ (o : List (String × String)) (k : String),
    jsLookup o k = none ↔ k ∉ o.map Prod.fst
  | [], k => by simp [jsLookup]
  | p :: rest, k => by
    rw [List.map_cons, List.mem_cons, jsLookup]
    by_cases h : p.1 = k
    · rw [if_pos h]
      simp [h]
    · rw [if_neg h, jsLookup_eq_none_iff rest k]
      constructor
      · intro hn hd
        rcases hd with hd | hd
        · exact h hd.symm
        · exact hn hd
      · intro hn hm
        exact hn (Or.inr hm)

theorem mem_of_jsLookup_eq_some : ∀ (o : List (String × String)) (k v : String),
    jsLookup o k = some v → (k, v) ∈ o
  | [], k, v => by simp [jsLookup]
  | p :: rest, k, v => by
    by_cases h : p.1 = k
    · intro hv
      rw [jsLookup, if_pos h] at hv
      cases hv
      have he : p = (k, p.2) := by
        calc p = (p.1, p.2) := rfl
          _ = (k, p.2) := by rw [h]
      exact List.mem_cons.mpr (Or.inl he.symm)
    · intro hv
      rw [jsLookup, if_neg h] at hv
      exact List.mem_cons_of_mem _ (mem_of_jsLookup_eq_some rest k v hv)

theorem jsLookup_eq_some_of_nodup : ∀ (o : List (String × String)) (k v : String),
    (o.map Prod.fst).Nodup → (k, v) ∈ o → jsLookup o k = some v
  | [], k, v, _, hm => by simp at hm
  | p :: rest, k, v, hnd, hm => by
    rw [List.map_cons, List.nodup_cons] at hnd
    rcases List.mem_cons.mp hm with he | ht
    · rw [jsLookup, ← he]
      simp
    · have hk : k ∈ rest.map Prod.fst := List.mem_map.mpr ⟨(k, v), ht, rfl⟩
      have hne : p.1 ≠ k := fun he => hnd.1 (he ▸ hk)
      rw [jsLookup, if_neg hne]
      exact jsLookup_eq_some_of_nodup rest k v hnd.2 ht

theorem jsLookup_eq_of_perm (p p' : List (String × String))
    (hperm : List.Perm p p') (hnd : (p.map Prod.fst).Nodup) :
    ∀ k, jsLookup p k = jsLookup p' k := by
  intro k
  have hkeysperm : (p.map Prod.fst).Perm (p'.map Prod.fst) := hperm.map Prod.fst
  have hnd' : (p'.map Prod.fst).Nodup := hkeysperm.nodup_iff.mp hnd
  cases hc : jsLookup p k with
  | none =>
    symm
    rw [jsLookup_eq_none_iff] at hc ⊢
    exact fun hmem => hc (hkeysperm.mem_iff.mpr hmem)
  | some v =>
    symm
    exact jsLookup_eq_some_of_nodup p' k v hnd'
      (hperm.mem_iff.mp (mem_of_jsLookup_eq_some p k v hc))

/-! ### Canonical string invariance -/

theorem keys_perm_of_lookup_eq (p p' : List (String × String))
    (hnd : (p.map Prod.fst).Nodup) (hnd' : (p'.map Prod.fst).Nodup)
    (h : ∀ k, jsLookup p k = jsLookup p' k) :
    (p.map Prod.fst).Perm (p'.map Prod.fst) := by
  rw [List.perm_iff_count]
  intro a
  by_cases hm : a ∈ p.map Prod.fst
  · have hsome : jsLookup p a ≠ none := fun hn => ((jsLookup_eq_none_iff p a).mp hn) hm
    have hm' : a ∈ p'.map Prod.fst := by
      by_contra hmem
      exact hsome (h a ▸ (jsLookup_eq_none_iff p' a).mpr hmem)
    rw [List.count_eq_one_of_mem hnd hm, List.count_eq_one_of_mem hnd' hm']
  · have hnone : jsLookup p a = none := (jsLookup_eq_none_iff p a).mpr hm
    have hm' : a ∉ p'.map Prod.fst := (jsLookup_eq_none_iff p' a).mp (h a ▸ hnone)
    rw [List.count_eq_zero.mpr hm, List.count_eq_zero.mpr hm']

theorem sortedKeys_eq_of_keys_perm (p p' : List (String × String))
    (hkeys : (p.map Prod.fst).Perm (p'.map Prod.fst)) :
    sortedKeys p = sortedKeys p' := by
  exact List.eq_of_perm_of_sorted
    (((List.perm_insertionSort keyRel (p.map Prod.fst)).trans hkeys).trans
      (List.perm_insertionSort keyRel (p'.map Prod.fst)).symm)
    (List.sorted_insertionSort keyRel (p.map Prod.fst))
    (List.sorted_insertionSort keyRel (p'.map Prod.fst))

theorem canonicalString_eq_of_lookup_eq (p p' : List (String × String))
    (hnd : (p.map Prod.fst).Nodup) (hnd' : (p'.map Prod.fst).Nodup)
    (h : ∀ k, jsLookup p k = jsLookup p' k) :
    canonicalString p = canonicalString p' := by
  have hkeys := keys_perm_of_lookup_eq p p' hnd hnd' h
  have hf : (fun k => k ++ "=" ++ jsIndex p k) = fun k => k ++ "=" ++ jsIndex p' k :=
    funext fun k => by rw [jsIndex, jsIndex, h k]
  rw [canonicalString, canonicalString, sortedKeys_eq_of_keys_perm p p' hkeys, hf]

/-- C1: for every parameter mapping and secret, `createSignature` is
deterministic and invariant under the insertion order of the keys: two
mappings with exactly the same key-value pairs (one a permutation of the
other, keys distinct) yield the identical signature string. -/
theorem C1_createSignature_insertion_order_invariant
    (P P' : List (String × String)) (S : String)
    (hperm : List.Perm P P') (hnd : (P.map Prod.fst).Nodup) :
    createSignature P S = createSignature P' S := by
  have hkeysperm : (P.map Prod.fst).Perm (P'.map Prod.fst) := hperm.map Prod.fst
  have hnd' : (P'.map Prod.fst).Nodup := hkeysperm.nodup_iff.mp hnd
  have h := jsLookup_eq_of_perm P P' hperm hnd
  rw [createSignature, createSignature,
    canonicalString_eq_of_lookup_eq P P' hnd hnd' h]

/-- Witness for C1 at the concrete mappings `{b:2, a:1}` and `{a:1, b:2}`. -/
theorem C1_witness :
    List.Perm [("b", "2"), ("a", "1")] [("a", "1"), ("b", "2")] ∧
    (([("b", "2"), ("a", "1")] : List (String × String)).map Prod.fst).Nodup ∧
    createSignature [("b", "2"), ("a", "1")] "s" = createSignature [("a", "1"), ("b", "2")] "s" :=
  ⟨List.Perm.swap _ _ _, by decide,
    C1_createSignature_insertion_order_invariant _ _ "s" (List.Perm.swap _ _ _) (by decide)⟩

/-- C3: with any of url/token/secret empty, `request` fails with the
configuration-incomplete error and the action trace is empty — no fetch, no
abort, zero network activity. -/
theorem C3_incomplete_config_fails_without_network
    (cfg : Config) (env : Env) (params : List (String × String))
    (h : cfg.scriptUrl = "" ∨ cfg.apiToken = "" ∨ cfg.hmacSecret = "") :
    request cfg env params = ([], Except.error ReqError.configIncomplete) := by
  rw [request, if_pos h]

/-- Witness for C3: a client constructed with no configuration at all. -/
theorem C3_witness :
    request (mkConfig ⟨none, none, none, none, none⟩) ⟨0, "", FetchOutcome.timeout⟩ [] =
      ([], Except.error ReqError.configIncomplete) :=
  C3_incomplete_config_fails_without_network _ _ _ (Or.inl rfl)

/-! ### Property-assignment lemmas -/

theorem jsLookup_append_single_self : ∀ (o : List (String × String)) (k v : String),
    hasKey o k = false → jsLookup (o ++ [(k, v)]) k = some v
  | [], k, v, _ => by simp [jsLookup]
  | p :: rest, k, v, h => by
    rw [hasKey, Bool.or_eq_false_iff] at h
    have hne : p.1 ≠ k := by simpa using h.1
    rw [List.cons_append, jsLookup, if_neg hne]
    exact jsLookup_append_single_self rest k v h.2

theorem jsLookup_append_single_ne : ∀ (o : List (String × String)) (k v k' : String),
    k' ≠ k → jsLookup (o ++ [(k, v)]) k' = jsLookup o k'
  | [], k, v, k', hne => by
    have h : k ≠ k' := fun h => hne h.symm
    simp [jsLookup, h]
  | p :: rest, k, v, k', hne => by
    rw [List.cons_append, jsLookup, jsLookup]
    by_cases h : p.1 = k'
    · rw [if_pos h, if_pos h]
    · rw [if_neg h, if_neg h]
      exact jsLookup_append_single_ne rest k v k' hne

theorem jsLookup_mapSet_self : ∀ (o : List (String × String)) (k v : String),
    hasKey o k = true →
      jsLookup (o.map (fun p => if p.1 = k then (k, v) else p)) k = some v
  | [], k, v, h => by simp [hasKey] at h
  | p :: rest, k, v, h => by
    rw [List.map_cons]
    by_cases hp : p.1 = k
    · rw [if_pos hp, jsLookup, if_pos rfl]
    · rw [hasKey, Bool.or_eq_true] at h
      rcases h with h | h
      · exact absurd (by simpa using h) hp
      · rw [if_neg hp, jsLookup, if_neg hp]
        exact jsLookup_mapSet_self rest k v h

theorem jsLookup_mapSet_ne : ∀ (o : List (String × String)) (k v k' : String),
    k' ≠ k → jsLookup (o.map (fun p => if p.1 = k then (k, v) else p)) k' = jsLookup o k'
  | [], _, _, _, _ => rfl
  | p :: rest, k, v, k', hne => by
    rw [List.map_cons]
    by_cases hp : p.1 = k
    · have hp' : p.1 ≠ k' := fun h => hne (h ▸ hp ▸ rfl)
      have hk' : k ≠ k' := fun h => hne h.symm
      rw [if_pos hp, jsLookup, if_neg hk', jsLookup, if_neg hp']
      exact jsLookup_mapSet_ne rest k v k' hne
    · rw [if_neg hp, jsLookup, jsLookup]
      by_cases h : p.1 = k'
      · rw [if_pos h, if_pos h]
      · rw [if_neg h, if_neg h]
        exact jsLookup_mapSet_ne rest k v k' hne

/-- Assigning `o[k] = v` makes a later read of `k` return `v`. -/
theorem jsLookup_objSet_self (o : List (String × String)) (k v : String) :
    jsLookup (objSet o k v) k = some v := by
  rw [objSet]
  cases h : hasKey o k
  · rw [if_neg (by simp)]
    exact jsLookup_append_single_self o k v h
  · rw [if_pos rfl]
    exact jsLookup_mapSet_self o k v h

/-- Assigning `o[k] = v` leaves every other key unchanged. -/
theorem jsLookup_objSet_ne (o : List (String × String)) (k v k' : String) (hne : k' ≠ k) :
    jsLookup (objSet o k v) k' = jsLookup o k' := by
  rw [objSet]
  cases h : hasKey o k
  · rw [if_neg (by simp)]
    exact jsLookup_append_single_ne o k v k' hne
  · rw [if_pos rfl]
    exact jsLookup_mapSet_ne o k v k' hne

/-- C10 (amended): the reserved keys `token`, `timestamp`, `referrer` and
`origin` are overwritten with the injected values before signing and sending,
and the outgoing `signature` field is the computed one; but a caller-supplied
`signature` value survives, unchanged, inside the envelope that is signed. -/
theorem C10_reserved_keys_overwritten
    (cfg : Config) (env : Env) (params : List (String × String)) :
    jsLookup (buildEnvelope cfg env params) "token" = some cfg.apiToken ∧
    jsLookup (buildEnvelope cfg env params) "timestamp" = some (toString env.now) ∧
    jsLookup (buildEnvelope cfg env params) "referrer" = some env.origin ∧
    jsLookup (buildEnvelope cfg env params) "origin" = some env.origin ∧
    jsLookup (objSet (buildEnvelope cfg env params) "signature"
        (createSignature (buildEnvelope cfg env params) cfg.hmacSecret)) "signature" =
      some (createSignature (buildEnvelope cfg env params) cfg.hmacSecret) ∧
    jsLookup (buildEnvelope cfg env params) "signature" = jsLookup params "signature" := by
  refine ⟨?_, ?_, ?_, ?_, jsLookup_objSet_self _ _ _, ?_⟩
  · rw [buildEnvelope,
      jsLookup_objSet_ne _ _ _ _ (by decide), jsLookup_objSet_ne _ _ _ _ (by decide),
      jsLookup_objSet_ne _ _ _ _ (by decide), jsLookup_objSet_self]
  · rw [buildEnvelope,
      jsLookup_objSet_ne _ _ _ _ (by decide), jsLookup_objSet_ne _ _ _ _ (by decide),
      jsLookup_objSet_self]
  · rw [buildEnvelope, jsLookup_objSet_ne _ _ _ _ (by decide), jsLookup_objSet_self]
  · rw [buildEnvelope, jsLookup_objSet_self]
  · rw [buildEnvelope,
      jsLookup_objSet_ne _ _ _ _ (by decide), jsLookup_objSet_ne _ _ _ _ (by decide),
      jsLookup_objSet_ne _ _ _ _ (by decide), jsLookup_objSet_ne _ _ _ _ (by decide)]

/-- Counterexample to C10 as stated: a caller-supplied `signature` value is
part of the envelope passed to `createSignature`, so it IS signed — the
canonical signing string visibly contains `signature=evil`. -/
theorem C10_counterexample :
    jsLookup (buildEnvelope ⟨"u", "T", "S", false, 30000⟩ ⟨5, "http://x", FetchOutcome.timeout⟩
        [("signature", "evil")]) "signature" = some "evil" ∧
    canonicalString (buildEnvelope ⟨"u", "T", "S", false, 30000⟩ ⟨5, "http://x", FetchOutcome.timeout⟩
        [("signature", "evil")]) =
      "origin=http://x&referrer=http://x&signature=evil&timestamp=5&token=T" := by
  exact ⟨by decide, by decide⟩

/-- C2: the scenario request with `url="https://example.test/api"`, `token="T1"`,
`secret="S1"` and `params={action:"getData"}` issues one fetch whose query holds
exactly the keys `action, token, timestamp, referrer, origin, signature` in that
order, with `signature` computed by `createSignature` over the first five fields. -/
theorem C2_request_envelope_scenario (env : Env) :
    (request (mkConfig ⟨some "https://example.test/api", some "T1", some "S1", none, none⟩) env
        [("action", "getData")]).1.head? =
      some (Action.fetch "https://example.test/api"
        (objSet [("action", "getData"), ("token", "T1"), ("timestamp", toString env.now),
            ("referrer", env.origin), ("origin", env.origin)] "signature"
          (createSignature [("action", "getData"), ("token", "T1"), ("timestamp", toString env.now),
            ("referrer", env.origin), ("origin", env.origin)] "S1"))) ∧
    buildEnvelope (mkConfig ⟨some "https://example.test/api", some "T1", some "S1", none, none⟩) env
        [("action", "getData")] =
      [("action", "getData"), ("token", "T1"), ("timestamp", toString env.now),
       ("referrer", env.origin), ("origin", env.origin)] ∧
    (objSet [("action", "getData"), ("token", "T1"), ("timestamp", toString env.now),
        ("referrer", env.origin), ("origin", env.origin)] "signature"
      (createSignature [("action", "getData"), ("token", "T1"), ("timestamp", toString env.now),
        ("referrer", env.origin), ("origin", env.origin)] "S1")).map Prod.fst =
      ["action", "token", "timestamp", "referrer", "origin", "signature"] := by
  exact ⟨rfl, rfl, rfl⟩

/-- C5: with a complete configuration, when the timeout fires before any
response, `request` fails with the timeout error and the in-flight call is
aborted (the trace contains the abort of the fetch). -/
theorem C5_timeout_aborts_and_fails
    (cfg : Config) (env : Env) (params : List (String × String))
    (h : ¬(cfg.scriptUrl = "" ∨ cfg.apiToken = "" ∨ cfg.hmacSecret = ""))
    (ht : env.net = FetchOutcome.timeout) :
    (request cfg env params).2 = Except.error ReqError.timeout ∧
    Action.abort ∈ (request cfg env params).1 := by
  rw [request, if_neg h]
  simp [ht, fetchResult]

/-- Witness for C5 at a concrete configuration and environment. -/
theorem C5_witness :
    (request ⟨"u", "T", "S", false, 30000⟩ ⟨0, "o", FetchOutcome.timeout⟩ []).2 =
      Except.error ReqError.timeout ∧
    Action.abort ∈ (request ⟨"u", "T", "S", false, 30000⟩ ⟨0, "o", FetchOutcome.timeout⟩ []).1 :=
  C5_timeout_aborts_and_fails _ _ _ (by decide) rfl

/-- Counterexample to C9 as stated: `configure` merges the supplied fields
verbatim, so supplying `timeout: 0` breaks the `timeout > 0` invariant. -/
theorem C9_counterexample :
    (configure (mkConfig ⟨none, none, none, none, none⟩) ⟨none, none, none, none, some 0⟩).timeout
      = 0 ∧
    ¬(0 < (configure (mkConfig ⟨none, none, none, none, none⟩)
        ⟨none, none, none, none, some 0⟩).timeout) := by
  exact ⟨rfl, by decide⟩

/-- C9 (amended): construction replaces an absent timeout with the default
30000; `configure` preserves `timeout > 0` only under the proviso that the
supplied timeout, if present, is itself positive. -/
theorem C9_timeout_default_and_conditional_invariant (ci : ConfigInput) (cfg : Config) :
    (ci.timeout = none → (mkConfig ci).timeout = 30000) ∧
    (0 < cfg.timeout → (∀ t, ci.timeout = some t → 0 < t) →
      0 < (configure cfg ci).timeout) := by
  constructor
  · intro h
    simp [mkConfig, h]
  · intro hpos hsup
    rw [configure]
    cases hc : ci.timeout with
    | none => simpa using hpos
    | some t => simpa using hsup t hc

/-- Witness for C9 (amended): the default at construction, and a `configure`
call with a positive supplied timeout. -/
theorem C9_witness :
    (mkConfig ⟨none, none, none, none, none⟩).timeout = 30000 ∧
    0 < (configure ⟨"u", "T", "S", false, 30000⟩ ⟨none, none, none, none, some 5⟩).timeout :=
  ⟨(C9_timeout_default_and_conditional_invariant ⟨none, none, none, none, none⟩
      ⟨"u", "T", "S", false, 30000⟩).1 rfl,
   (C9_timeout_default_and_conditional_invariant ⟨none, none, none, none, some 5⟩
      ⟨"u", "T", "S", false, 30000⟩).2 (by decide) (fun t ht => by cases ht; decide)⟩

/-- C8: canonicalization is not injective — `{a: "1&b=2"}` and `{a: "1", b: "2"}`
are distinct mappings with the same canonical string, hence the same signature
under every secret. -/
theorem C8_canonicalization_not_injective :
    ([("a", "1&b=2")] : List (String × String)) ≠ [("a", "1"), ("b", "2")] ∧
    canonicalString [("a", "1&b=2")] = canonicalString [("a", "1"), ("b", "2")] ∧
    ∀ S : String, createSignature [("a", "1&b=2")] S = createSignature [("a", "1"), ("b", "2")] S := by
  refine ⟨by decide, by decide, fun S => ?_⟩
  rw [createSignature, createSignature,
    show canonicalString [("a", "1&b=2")] = canonicalString [("a", "1"), ("b", "2")] by decide]

/-- C4 (amended): a non-2xx response fails with the HTTP error carrying the
status; a 2xx body with `status === "success"` resolves with the full body; a
2xx body on which the `data.status` access throws (a `null` body) surfaces the
TypeError as the underlying fault, not as `RequestFailed`; any other 2xx body
fails with `RequestFailed` whose message is the body's message when that
message is truthy, and the generic failure string when the message is absent
or falsy. -/
theorem C4_response_handling
    (cfg : Config) (env : Env) (params : List (String × String)) (status : Nat) (body : JVal)
    (h : ¬(cfg.scriptUrl = "" ∨ cfg.apiToken = "" ∨ cfg.hmacSecret = ""))
    (hnet : env.net = FetchOutcome.response status (Except.ok body)) :
    ((status < 200 ∨ 299 < status) →
      (request cfg env params).2 = Except.error (ReqError.httpError status)) ∧
    (¬(status < 200 ∨ 299 < status) →
      (∀ m, body.get "status" = Except.error m →
        (request cfg env params).2 = Except.error (ReqError.typeError m)) ∧
      (body.get "status" = Except.ok (some (JVal.str "success")) →
        (request cfg env params).2 = Except.ok body) ∧
      (∀ st, body.get "status" = Except.ok st → st ≠ some (JVal.str "success") →
        ∀ mv, body.get "message" = Except.ok mv →
          (request cfg env params).2 = Except.error (ReqError.requestFailed (jsMessage mv))) ∧
      jsMessage none = "Request failed" ∧
      (∀ m : JVal, m.truthy = true → jsMessage (some m) = m.toStr) ∧
      (∀ m : JVal, m.truthy = false → jsMessage (some m) = "Request failed")) := by
  have hres : (request cfg env params).2 = (fetchResult env.net).2 := by
    rw [request, if_neg h]
  rw [hres, hnet]
  constructor
  · intro hs
    simp [fetchResult, if_pos hs]
  · intro hs
    refine ⟨?_, ?_, ?_, rfl, ?_, ?_⟩
    · intro m hm
      simp [fetchResult, if_neg hs, hm]
    · intro hsucc
      simp [fetchResult, if_neg hs, hsucc]
    · intro st hst hne mv hmv
      rw [fetchResult]
      simp only [if_neg hs, hst]
      cases st with
      | none => simp [failWith, hmv]
      | some v =>
        cases v with
        | str sv =>
          have hsne : sv ≠ "success" := fun he => hne (by rw [he])
          simp [hsne, failWith, hmv]
        | num n => simp [failWith, hmv]
        | bool b => simp [failWith, hmv]
        | null => simp [failWith, hmv]
        | arr xs => simp [failWith, hmv]
        | obj fs => simp [failWith, hmv]
    · intro m htr
      simp [jsMessage, htr]
    · intro m htr
      simp [jsMessage, htr]

/-- Counterexample to C4 as stated, in two parts.  A present-but-empty
`message` is not carried into the failure — the code substitutes the generic
failure string.  And a 2xx response whose JSON body is `null` does not fail
with `RequestFailed` at all: the `data.status` access throws a `TypeError`
that surfaces as the underlying fault. -/
theorem C4_counterexample :
    (request ⟨"u", "T", "S", false, 30000⟩
        ⟨0, "o", FetchOutcome.response 200 (Except.ok
          (JVal.obj [("status", JVal.str "error"), ("message", JVal.str "")]))⟩ []).2 =
      Except.error (ReqError.requestFailed "Request failed") ∧
    (JVal.obj [("status", JVal.str "error"), ("message", JVal.str "")]).get "message" =
      Except.ok (some (JVal.str "")) ∧
    "Request failed" ≠ "" ∧
    (request ⟨"u", "T", "S", false, 30000⟩
        ⟨0, "o", FetchOutcome.response 200 (Except.ok JVal.null)⟩ []).2 =
      Except.error (ReqError.typeError "TypeError: cannot read properties of null") ∧
    (∀ m : String,
      (request ⟨"u", "T", "S", false, 30000⟩
          ⟨0, "o", FetchOutcome.response 200 (Except.ok JVal.null)⟩ []).2 ≠
        Except.error (ReqError.requestFailed m)) := by
  refine ⟨rfl, rfl, by decide, rfl, ?_⟩
  intro m hm
  rw [show (request ⟨"u", "T", "S", false, 30000⟩
      ⟨0, "o", FetchOutcome.response 200 (Except.ok JVal.null)⟩ []).2 =
      Except.error (ReqError.typeError "TypeError: cannot read properties of null") from rfl] at hm
  exact ReqError.noConfusion (Except.error.inj hm)

/-- Witness for C4 (amended) on a successful 2xx response. -/
theorem C4_witness :
    (request ⟨"u", "T", "S", false, 30000⟩
        ⟨0, "o", FetchOutcome.response 200 (Except.ok
          (JVal.obj [("status", JVal.str "success")]))⟩ []).2 =
      Except.ok (JVal.obj [("status", JVal.str "success")]) :=
  (((C4_response_handling _ _ [] 200 _ (by decide) rfl).2 (by decide)).2).1 rfl

/-! ### C7: sequential requests -/

/-- C7: `requestSequential` resolves with the member results in input order when
every member succeeds; and whenever a failing request follows any prefix of
successes, the whole operation fails with that error (the earlier successful
results are discarded from the aggregate) and the action trace ends at the
failing request — nothing after it is attempted. -/
theorem C7_requestSequential_semantics (cfg : Config)
    (ps₁ : List (List (String × String) × Env)) (vs₁ : List JVal)
    (hok : List.Forall₂ (fun pe v => (request cfg pe.2 pe.1).2 = Except.ok v) ps₁ vs₁) :
    (requestSequential cfg ps₁).2 = Except.ok vs₁ ∧
    ∀ pe err ps₂,
      (request cfg pe.2 pe.1).2 = Except.error err →
      (requestSequential cfg (ps₁ ++ pe :: ps₂)).2 = Except.error err ∧
      (requestSequential cfg (ps₁ ++ pe :: ps₂)).1 =
        (ps₁.map (fun q => (request cfg q.2 q.1).1)).flatten ++ (request cfg pe.2 pe.1).1 := by
  induction hok with
  | nil =>
    refine ⟨rfl, fun pe err ps₂ herr => ?_⟩
    rw [List.nil_append]
    constructor
    · simp [requestSequential, herr]
    · simp [requestSequential, herr]
  | cons h0 htail ih =>
    constructor
    · simp [requestSequential, h0, ih.1]
    · intro pe err ps₂ herr
      rcases ih.2 pe err ps₂ herr with ⟨he, ht⟩
      constructor
      · simp [requestSequential, h0, he]
      · simp [requestSequential, h0, he, ht, List.append_assoc]

/-- Witness for C7: one success followed by a failing request, with a further
request behind it that is never attempted. -/
theorem C7_witness :
    (requestSequential ⟨"u", "T", "S", false, 30000⟩
        [([("a", "1")], ⟨0, "o", FetchOutcome.response 200 (Except.ok
          (JVal.obj [("status", JVal.str "success")]))⟩)]).2 =
      Except.ok [JVal.obj [("status", JVal.str "success")]] ∧
    (requestSequential ⟨"u", "T", "S", false, 30000⟩
        ([([("a", "1")], ⟨0, "o", FetchOutcome.response 200 (Except.ok
          (JVal.obj [("status", JVal.str "success")]))⟩)] ++
          ([("b", "2")], (⟨0, "o", FetchOutcome.response 500 (Except.ok JVal.null)⟩ : Env)) ::
          [([("c", "3")], ⟨0, "o", FetchOutcome.response 200 (Except.ok
            (JVal.obj [("status", JVal.str "success")]))⟩)])).2 =
      Except.error (ReqError.httpError 500) :=
  ⟨(C7_requestSequential_semantics ⟨"u", "T", "S", false, 30000⟩
      [([("a", "1")], ⟨0, "o", FetchOutcome.response 200 (Except.ok
        (JVal.obj [("status", JVal.str "success")]))⟩)]
      [JVal.obj [("status", JVal.str "success")]]
      (List.Forall₂.cons rfl List.Forall₂.nil)).1,
   ((C7_requestSequential_semantics ⟨"u", "T", "S", false, 30000⟩
      [([("a", "1")], ⟨0, "o", FetchOutcome.response 200 (Except.ok
        (JVal.obj [("status", JVal.str "success")]))⟩)]
      [JVal.obj [("status", JVal.str "success")]]
      (List.Forall₂.cons rfl List.Forall₂.nil)).2
      ([("b", "2")], (⟨0, "o", FetchOutcome.response 500 (Except.ok JVal.null)⟩ : Env))
      (ReqError.httpError 500)
      [([("c", "3")], ⟨0, "o", FetchOutcome.response 200 (Except.ok
        (JVal.obj [("status", JVal.str "success")]))⟩)] rfl).1⟩

/-! ### C6: the signature computation against the specification text -/

/-- The specification's asserted key order, stated independently: code-point
lexicographic order on the scalar-value sequences of the strings. -/
def specKeyLe (a b : String) : Prop :=
  List.Lex (fun c d : Char => c < d) a.data b.data ∨ a.data = b.data

theorem charListLe_iff_lex : ∀ as bs : List Char,
    charListLe as bs = true ↔ (List.Lex (fun c d : Char => c < d) as bs ∨ as = bs)
  | [], [] => by
    constructor
    · intro _
      exact Or.inr rfl
    · intro _
      rfl
  | [], _ :: _ => by
    constructor
    · intro _
      exact Or.inl List.Lex.nil
    · intro _
      rfl
  | a :: as, [] => by
    constructor
    · intro h
      exact absurd h (by simp [charListLe])
    · intro h
      rcases h with h | h
      · cases h
      · exact absurd h (by simp)
  | a :: as, b :: bs => by
    rcases Nat.lt_trichotomy a.toNat b.toNat with h | h | h
    · constructor
      · intro _
        exact Or.inl (List.Lex.rel h)
      · intro _
        simp [charListLe, h]
    · have hab : a = b := Char.eq_of_val_eq (UInt32.ext h)
      subst hab
      have hrec := charListLe_iff_lex as bs
      constructor
      · intro hc
        rw [charListLe, if_neg (Nat.lt_irrefl _), if_neg (Nat.lt_irrefl _)] at hc
        rcases hrec.mp hc with h2 | h2
        · exact Or.inl (List.Lex.cons h2)
        · exact Or.inr (by rw [h2])
      · intro h2
        rw [charListLe, if_neg (Nat.lt_irrefl _), if_neg (Nat.lt_irrefl _)]
        apply hrec.mpr
        rcases h2 with h2 | h2
        · cases h2 with
          | cons h3 => exact Or.inl h3
          | rel h3 => exact absurd h3 (Nat.lt_irrefl a.toNat)
        · exact Or.inr (by injection h2)
    · constructor
      · intro hc
        rw [charListLe, if_neg (by omega), if_pos h] at hc
        exact absurd hc (by simp)
      · intro h2
        rcases h2 with h2 | h2
        · cases h2 with
          | cons h3 => exact absurd h (Nat.lt_irrefl _)
          | rel h3 => exact absurd (show a.toNat < b.toNat from h3) (by omega)
        · have hab : a = b := by injection h2
          subst hab
          exact absurd h (Nat.lt_irrefl _)

instance specKeyLeDecidable : DecidableRel specKeyLe := fun a b =>
  decidable_of_iff _ (charListLe_iff_lex a.data b.data)

theorem unitListLe_iff_lex : ∀ u v : List Nat,
    unitListLe u v = true ↔ (List.Lex (fun m n : Nat => m < n) u v ∨ u = v)
  | [], [] => by
    constructor
    · intro _
      exact Or.inr rfl
    · intro _
      rfl
  | [], _ :: _ => by
    constructor
    · intro _
      exact Or.inl List.Lex.nil
    · intro _
      rfl
  | a :: u, [] => by
    constructor
    · intro h
      exact absurd h (by simp [unitListLe])
    · intro h
      rcases h with h | h
      · cases h
      · exact absurd h (by simp)
  | a :: u, b :: v => by
    rcases Nat.lt_trichotomy a b with h | h | h
    · constructor
      · intro _
        exact Or.inl (List.Lex.rel h)
      · intro _
        simp [unitListLe, h]
    · subst h
      have hrec := unitListLe_iff_lex u v
      constructor
      · intro hc
        rw [unitListLe, if_neg (Nat.lt_irrefl _), if_neg (Nat.lt_irrefl _)] at hc
        rcases hrec.mp hc with h2 | h2
        · exact Or.inl (List.Lex.cons h2)
        · exact Or.inr (by rw [h2])
      · intro h2
        rw [unitListLe, if_neg (Nat.lt_irrefl _), if_neg (Nat.lt_irrefl _)]
        apply hrec.mpr
        rcases h2 with h2 | h2
        · cases h2 with
          | cons h3 => exact Or.inl h3
          | rel h3 => exact absurd h3 (Nat.lt_irrefl a)
        · exact Or.inr (by injection h2)
    · constructor
      · intro hc
        rw [unitListLe, if_neg (by omega), if_pos h] at hc
        exact absurd hc (by simp)
      · intro h2
        rcases h2 with h2 | h2
        · cases h2 with
          | cons h3 => exact absurd h (Nat.lt_irrefl _)
          | rel h3 => exact absurd h3 (by omega)
        · have hab : a = b := by injection h2
          subst hab
          exact absurd h (Nat.lt_irrefl _)

/-- The key order the code actually uses, stated independently of the
executable comparison: strict lexicographic order on the UTF-16 code-unit
sequences, or unit-wise equality. -/
def specKeyLeUnits (a b : String) : Prop :=
  List.Lex (fun m n : Nat => m < n) (utf16 a) (utf16 b) ∨ utf16 a = utf16 b

instance specKeyLeUnitsDecidable : DecidableRel specKeyLeUnits := fun a b =>
  decidable_of_iff _ (unitListLe_iff_lex (utf16 a) (utf16 b))

theorem keyRel_iff_specKeyLeUnits : ∀ a b : String, keyRel a b ↔ specKeyLeUnits a b :=
  fun a b => unitListLe_iff_lex (utf16 a) (utf16 b)

theorem orderedInsert_congr_of (r₁ r₂ : String → String → Prop)
    [DecidableRel r₁] [DecidableRel r₂] (a : String) :
    ∀ l, (∀ x ∈ l, (r₁ a x ↔ r₂ a x)) →
      List.orderedInsert r₁ a l = List.orderedInsert r₂ a l
  | [], _ => rfl
  | b :: l, h => by
    rw [List.orderedInsert, List.orderedInsert]
    exact if_congr (h b (List.mem_cons_self b l)) rfl
      (by rw [orderedInsert_congr_of r₁ r₂ a l (fun x hx => h x (List.mem_cons_of_mem b hx))])

theorem insertionSort_congr_of (r₁ r₂ : String → String → Prop)
    [DecidableRel r₁] [DecidableRel r₂] :
    ∀ l, (∀ x ∈ l, ∀ y ∈ l, (r₁ x y ↔ r₂ x y)) →
      List.insertionSort r₁ l = List.insertionSort r₂ l
  | [], _ => rfl
  | a :: l, h => by
    rw [List.insertionSort, List.insertionSort,
      insertionSort_congr_of r₁ r₂ l
        (fun x hx y hy => h x (List.mem_cons_of_mem a hx) y (List.mem_cons_of_mem a hy))]
    refine orderedInsert_congr_of r₁ r₂ a _ (fun x hx => ?_)
    have hxl : x ∈ l := (List.perm_insertionSort r₂ l).mem_iff.mp hx
    exact h a (List.mem_cons_self a l) x (List.mem_cons_of_mem a hxl)

theorem insertionSort_congr (r₁ r₂ : String → String → Prop)
    [DecidableRel r₁] [DecidableRel r₂] (hr : ∀ a b, r₁ a b ↔ r₂ a b) (l : List String) :
    List.insertionSort r₁ l = List.insertionSort r₂ l :=
  insertionSort_congr_of r₁ r₂ l (fun x _ y _ => hr x y)

/-- The specification's canonical-string construction: raw string concatenation
of the `k=v` parts with `&` separators. -/
def specConcat : List String → String
  | [] => ""
  | [p] => p
  | p :: q :: rest => p ++ ("&" ++ specConcat (q :: rest))

theorem joinAmp_eq_specConcat : ∀ l, joinAmp l = specConcat l
  | [] => rfl
  | [_] => rfl
  | p :: q :: rest => by
    rw [joinAmp, specConcat, joinAmp_eq_specConcat (q :: rest), String.append_assoc]

/-- The canonical string as the specification words it. -/
def canonicalStringSpec (params : List (String × String)) : String :=
  specConcat ((List.insertionSort specKeyLe (params.map Prod.fst)).map
    (fun k => k ++ "=" ++ jsIndex params k))

/-- The signature as the specification words it: HMAC-SHA256 of the canonical
string keyed by the secret, rendered as a lowercase hexadecimal digest. -/
def computeSignatureSpec (params : List (String × String)) (secret : String) : String :=
  bytesToHex (hmacSha256Bytes (utf8 secret) (utf8 (canonicalStringSpec params)))

/-- The canonical string over the code-unit-sorted keys (what the code does),
in the specification's raw-concatenation form. -/
def canonicalStringUnits (params : List (String × String)) : String :=
  specConcat ((List.insertionSort specKeyLeUnits (params.map Prod.fst)).map
    (fun k => k ++ "=" ++ jsIndex params k))

/-- The signature over the code-unit-sorted canonical string. -/
def computeSignatureSpecUnits (params : List (String × String)) (secret : String) : String :=
  bytesToHex (hmacSha256Bytes (utf8 secret) (utf8 (canonicalStringUnits params)))

/-- On a BMP-only string the UTF-16 units are exactly the scalar values. -/
theorem flatMap_utf16Char_bmp : ∀ l : List Char, (∀ c ∈ l, c.toNat < 65536) →
    l.flatMap utf16Char = l.map Char.toNat
  | [], _ => rfl
  | c :: l, h => by
    rw [List.flatMap_cons, List.map_cons, utf16Char,
      if_pos (h c (List.mem_cons_self c l)),
      flatMap_utf16Char_bmp l (fun x hx => h x (List.mem_cons_of_mem c hx))]
    rfl

/-- On scalar-value sequences, code-unit comparison of the values is exactly
the code-point comparison. -/
theorem unitListLe_map_toNat : ∀ as bs : List Char,
    unitListLe (as.map Char.toNat) (bs.map Char.toNat) = charListLe as bs
  | [], bs => by cases bs <;> rfl
  | _ :: _, [] => rfl
  | a :: as, b :: bs => by
    rw [List.map_cons, List.map_cons, unitListLe, charListLe,
      unitListLe_map_toNat as bs]

/-- Membership in the lowercase hexadecimal alphabet. -/
def isHexChar (c : Char) : Bool := "0123456789abcdef".data.contains c

/-- Whether every character of the string is a lowercase hex digit. -/
def isLowerHexStr (s : String) : Bool := s.data.all isHexChar

theorem hexDigit_isHex : ∀ n, n < 16 → isHexChar (hexDigit n) = true := by decide

theorem byteToHex_isHex (n : Nat) : (byteToHex n).all isHexChar = true := by
  rw [byteToHex]
  simp [hexDigit_isHex (n / 16 % 16) (Nat.mod_lt _ (by omega)),
    hexDigit_isHex (n % 16) (Nat.mod_lt _ (by omega))]

theorem flatMap_byteToHex_isHex : ∀ bs : List Nat, (bs.flatMap byteToHex).all isHexChar = true
  | [] => rfl
  | b :: bs => by
    rw [List.flatMap_cons, List.all_append, byteToHex_isHex b, flatMap_byteToHex_isHex bs]
    rfl

theorem flatMap_byteToHex_length : ∀ bs : List Nat, (bs.flatMap byteToHex).length = 2 * bs.length
  | [] => rfl
  | b :: bs => by
    rw [List.flatMap_cons, List.length_append, flatMap_byteToHex_length bs,
      show (byteToHex b).length = 2 from rfl, List.length_cons]
    omega

theorem sha256Bytes_length (m : List Nat) : (sha256Bytes m).length = 32 := by
  simp [sha256Bytes, wordToBytes]

theorem hmacSha256Bytes_length (k m : List Nat) : (hmacSha256Bytes k m).length = 32 := by
  unfold hmacSha256Bytes
  exact sha256Bytes_length _

/-- Counterexample to C6 as stated: the comparator-less JS sort is UTF-16
code-unit order, not code-point order. The astral key 🔑 (U+1F511, lead
surrogate unit 0xD83D) sorts before � (U+FFFD) in the code but after it under
the specification's code-point order, so the canonical signing strings — and
the signatures — differ. -/
theorem C6_counterexample :
    canonicalString [("🔑", "1"), ("�", "2")] = "🔑=1&�=2" ∧
    canonicalStringSpec [("🔑", "1"), ("�", "2")] = "�=2&🔑=1" ∧
    canonicalString [("🔑", "1"), ("�", "2")] ≠ canonicalStringSpec [("🔑", "1"), ("�", "2")] ∧
    createSignature [("🔑", "1"), ("�", "2")] "s" ≠
      computeSignatureSpec [("🔑", "1"), ("�", "2")] "s" := by
  exact ⟨by decide, by decide, by decide, by decide⟩

/-- C6 (amended): `createSignature` sorts the keys with the comparator-less JS
sort — UTF-16 code-unit lexicographic order — builds the raw `k=v&...`
canonical string with no URL-encoding, and returns the HMAC-SHA256 of that
string keyed by the secret as a 64-character lowercase hexadecimal digest;
the code-unit order coincides with the specification's code-point order
whenever every key is BMP-only (no astral-plane characters). -/
theorem C6_createSignature_code_unit_refinement
    (params : List (String × String)) (secret : String) :
    createSignature params secret = computeSignatureSpecUnits params secret ∧
    canonicalString params = canonicalStringUnits params ∧
    (createSignature params secret).length = 64 ∧
    isLowerHexStr (createSignature params secret) = true ∧
    ((∀ k ∈ params.map Prod.fst, ∀ c ∈ k.data, c.toNat < 65536) →
      canonicalString params = canonicalStringSpec params) := by
  have hsortU : sortedKeys params = List.insertionSort specKeyLeUnits (params.map Prod.fst) :=
    insertionSort_congr _ _ keyRel_iff_specKeyLeUnits _
  have hcanonU : canonicalString params = canonicalStringUnits params := by
    rw [canonicalString, canonicalStringUnits, hsortU, joinAmp_eq_specConcat]
  refine ⟨?_, hcanonU, ?_, ?_, ?_⟩
  · rw [createSignature, computeSignatureSpecUnits, hcanonU]
    rfl
  · show ((hmacSha256Bytes (utf8 secret) (utf8 (canonicalString params))).flatMap
        byteToHex).length = 64
    rw [flatMap_byteToHex_length, hmacSha256Bytes_length]
  · show isLowerHexStr (bytesToHex (hmacSha256Bytes (utf8 secret) (utf8 (canonicalString params)))) = true
    exact flatMap_byteToHex_isHex _
  · intro hbmp
    have hiff : ∀ x ∈ params.map Prod.fst, ∀ y ∈ params.map Prod.fst,
        (keyRel x y ↔ specKeyLe x y) := by
      intro x hx y hy
      have hx16 : utf16 x = x.data.map Char.toNat := flatMap_utf16Char_bmp x.data (hbmp x hx)
      have hy16 : utf16 y = y.data.map Char.toNat := flatMap_utf16Char_bmp y.data (hbmp y hy)
      have hb : keyLe x y = charListLe x.data y.data := by
        rw [keyLe, hx16, hy16, unitListLe_map_toNat]
      have h2 : keyRel x y = (charListLe x.data y.data = true) := by
        show (keyLe x y = true) = _
        rw [hb]
      rw [h2]
      exact charListLe_iff_lex x.data y.data
    have hsortP : sortedKeys params = List.insertionSort specKeyLe (params.map Prod.fst) :=
      insertionSort_congr_of _ _ _ hiff
    rw [canonicalString, canonicalStringSpec, hsortP, joinAmp_eq_specConcat]

/-- Witness for C6 (amended): on BMP-only keys the code order and the
specification's code-point order give the same canonical string. -/
theorem C6_witness :
    canonicalString [("b", "2"), ("a", "1")] = canonicalStringSpec [("b", "2"), ("a", "1")] :=
  (C6_createSignature_code_unit_refinement [("b", "2"), ("a", "1")] "s").2.2.2.2 (by decide)

/-- Sanity check of the HMAC-SHA256 embedding against the RFC 4231 test case 2
vector (key `Jefe`). -/
theorem hmac_jefe_vector :
    computeHMAC "what do ya want for nothing?" "Jefe" =
      "5bdcc146bf60754e6a042426089575c75a003f089d2739839dec58b964ec3843" := by decide

end GSApi
